import Mathlib

/-!
Shallow embedding of the Networking_training repository:
the `Message` binary container (Network_framework/Source/Message/Message.h),
the thread-safe deque (Networking_training/Networking/Utility/Thread_safe_deque.h),
the `Net_user` inbound queue and asio-thread lifecycle
(Network_framework/Source/Net_user/Net_user.h), and the
`Client_connection` id assignment
(Networking_training/Networking/Connection/Client_connection.h).

Bytes are modelled as `Nat` (one entry per `char` of the C++ buffers);
sizes are `Nat` (the program never exercises `size_t` wrap-around: a
buffer large enough to wrap a 64-bit size cannot exist in an address
space).  Functions that throw `std::length_error` are modelled in an
`Except` monad whose error payload is the state of the object at the
moment the exception is thrown, so that "leaves the object unchanged"
claims can be stated exactly.
-/

namespace NetSpec

/-- Modelled from the spec: `Message_header.h` / `Common.h`, which define
`Header_size_type`, are not under src.  The spec describes the header size
field as "a 32-bit or configurable width" unsigned integer; we model
`Header_size_type` as a 32-bit unsigned integer, so its maximum value is
`2^32 - 1`. -/
def headerSizeMax : Nat := 2 ^ 32 - 1

/-- Little-endian object representation of a `uint64_t` value, as produced by
`std::memcpy` from a `Size_type` (`uint64_t`) on the little-endian targets the
program runs on.  Eight bytes, least significant first. -/
def u64_bytes (n : Nat) : List Nat :=
  [n % 256, n / 256 % 256, n / 256 ^ 2 % 256, n / 256 ^ 3 % 256,
   n / 256 ^ 4 % 256, n / 256 ^ 5 % 256, n / 256 ^ 6 % 256, n / 256 ^ 7 % 256]

/-- Reads a `uint64_t` back out of its eight-byte little-endian object
representation (the `reinterpret_cast` in `Message::extract<Size_type>`). -/
def bytes_to_u64 : List Nat → Nat
  | [b0, b1, b2, b3, b4, b5, b6, b7] =>
      b0 + 256 * b1 + 256 ^ 2 * b2 + 256 ^ 3 * b3 + 256 ^ 4 * b4 +
        256 ^ 5 * b5 + 256 ^ 6 * b6 + 256 ^ 7 * b7
  | _ => 0

/-- Modelled from the spec: `Message_header.h` is not under src.  The spec
gives the header as `{id, body_size, internal_id}` where `id` is the
application enumeration, `internal_id` a framework-reserved enumeration
(modelled as `Nat`, `0` standing for `not_internal`), and `m_size` the body
size field (`Header_size_type`, see `headerSizeMax`). -/
structure Message_header (Id_type : Type) where
  m_id : Id_type
  m_internal_id : Nat
  m_size : Nat
  deriving DecidableEq, Repr

/-- Embeds `Net::Message<Id_type>`: a header plus a byte body (`std::vector<char>`). -/
structure Message (Id_type : Type) where
  m_header : Message_header Id_type
  m_body : List Nat
  deriving DecidableEq, Repr

/-- Embeds `Message::resize_body`: `m_body.resize(new_size)` — truncates or
zero-extends the body, touching nothing else (in particular not the header's
size field). -/
def resize_body (m : Message Id_type) (new_size : Nat) : Message Id_type :=
  { m with m_body := m.m_body.take new_size ++
      List.replicate (new_size - m.m_body.length) 0 }

/-- Embeds `Message::push_back_buffer`: checks that the new total size is
representable in `Header_size_type`, throwing `std::length_error` before any
mutation otherwise; then resizes the body and copies the buffer to its tail
with `std::memcpy(&m_body.at(size), buffer, buffer_size)`.  For a zero-length
buffer the resize is a no-op and `m_body.at(size)` indexes one past the end,
throwing `std::out_of_range` — the second error branch — so the message is
left unchanged and the size field is never updated.  Otherwise the copy
appends the buffer and the new size is stored in the header.  The error
payload is the message state at the throw (unchanged on both paths). -/
def push_back_buffer (m : Message Id_type) (buffer : List Nat) :
    Except (Message Id_type) (Message Id_type) :=
  let size := m.m_body.length
  let new_size := size + buffer.length
  if new_size > headerSizeMax then
    .error m
  else if buffer.length = 0 then
    .error m
  else
    .ok { m with m_body := m.m_body ++ buffer,
                 m_header := { m.m_header with m_size := new_size } }

/-- Embeds `Message::extract_to_buffer`: throws `std::length_error` (before
any mutation) when fewer bytes remain than requested; then copies the last
`buffer_size` body bytes out with `std::memcpy(buffer, &m_body.at(new_size),
buffer_size)`.  For a zero-length extraction `new_size` equals the body
length, so `m_body.at(new_size)` indexes one past the end and throws
`std::out_of_range` — the second error branch, with the message still
unchanged.  Otherwise the body is shrunk and the new size stored in the
header through `checked_cast`, which itself throws after the resize if the
new size is not representable (unreachable from well-formed messages).
Returns the extracted bytes in body order together with the new message. -/
def extract_to_buffer (m : Message Id_type) (buffer_size : Nat) :
    Except (Message Id_type) (List Nat × Message Id_type) :=
  if buffer_size > m.m_body.length then
    .error m
  else
    let new_size := m.m_body.length - buffer_size
    if buffer_size = 0 then
      .error m
    else
      let bytes := m.m_body.drop new_size
      let body := m.m_body.take new_size
      if new_size > headerSizeMax then
        .error { m with m_body := body }
      else
        .ok (bytes, { m with m_body := body,
                             m_header := { m.m_header with m_size := new_size } })

/-- Embeds `Message::push_back<std::string_view>` (and `push_back<std::string>`):
first `push_back_buffer(string.data(), string.size())`, then
`push_back(static_cast<Size_type>(string.size()))` — the raw characters
followed by the 8-byte length.  The string is a byte list. -/
def push_string (m : Message Id_type) (s : List Nat) :
    Except (Message Id_type) (Message Id_type) :=
  match push_back_buffer m s with
  | .error e => .error e
  | .ok m1 => push_back_buffer m1 (u64_bytes s.length)

/-- Embeds `Message::extract<std::string>`: extracts a `Size_type` (8 bytes,
mutating the message), resizes the output string to that length, then
extracts that many bytes into it.  If the second extraction throws, the
length field stays consumed. -/
def extract_string (m : Message Id_type) :
    Except (Message Id_type) (List Nat × Message Id_type) :=
  match extract_to_buffer m 8 with
  | .error e => .error e
  | .ok (len_bytes, m1) =>
    match extract_to_buffer m1 (bytes_to_u64 len_bytes) with
    | .error e => .error e
    | .ok (payload, m2) => .ok (payload, m2)

/-- Embeds `Message::clear`: empties the body and zeroes the header size. -/
def clear (m : Message Id_type) : Message Id_type :=
  { m with m_body := [],
           m_header := { m.m_header with m_size := 0 } }

/-- The well-formedness invariant a `Message` maintains: the header size
field mirrors the body length, and the body length is representable in
`Header_size_type`. -/
def wf (m : Message Id_type) : Prop :=
  m.m_header.m_size = m.m_body.length ∧ m.m_body.length ≤ headerSizeMax

instance (m : Message Id_type) : Decidable (wf m) := by
  unfold wf; infer_instance

/-- The default-constructed message with a given id: empty body, zero size,
`not_internal` internal id. -/
def empty_message (id : Id_type) : Message Id_type :=
  { m_header := { m_id := id, m_internal_id := 0, m_size := 0 }, m_body := [] }

/-- One mutation of a `Message` through its body interface:
`push_back_buffer`, `extract_to_buffer`, `clear`, or `resize_body`.  A failed
push or extract leaves the message in the state at the throw (which is what
the C++ exception semantics leave behind). -/
inductive Mutation where
  | push (buffer : List Nat)
  | ext (buffer_size : Nat)
  | doClear
  | resize (new_size : Nat)
  deriving DecidableEq, Repr

def Mutation.is_resize : Mutation → Bool
  | .resize _ => true
  | _ => false

/-- Applies one mutation, keeping the post-throw state on failure. -/
def apply_mutation (m : Message Id_type) : Mutation → Message Id_type
  | .push buffer =>
    match push_back_buffer m buffer with
    | .ok m1 => m1
    | .error e => e
  | .ext n =>
    match extract_to_buffer m n with
    | .ok (_, m1) => m1
    | .error e => e
  | .doClear => clear m
  | .resize n => resize_body m n

/-- A typed field pushed onto / extracted from a `Message`: either a
fixed-layout value, represented by its object-representation bytes
(`sizeof` of the type = length of the list, `memcpy` both ways is the
identity on this representation), or a string, represented by its character
bytes. -/
inductive Field where
  | fixed (bytes : List Nat)
  | str (bytes : List Nat)
  deriving DecidableEq, Repr

/-- Embeds `Message::push_back` on one field: `push_back_buffer` of the object
representation for a fixed-layout value, `push_back<std::string_view>` for a
string. -/
def push_field (m : Message Id_type) : Field → Except (Message Id_type) (Message Id_type)
  | .fixed bs => push_back_buffer m bs
  | .str s => push_string m s

/-- Embeds `Message::extract` with the type matching the given field: for a
fixed-layout type the extracted byte count is the field's `sizeof`; for a
string, `extract<std::string>`. -/
def extract_field (m : Message Id_type) :
    Field → Except (Message Id_type) (Field × Message Id_type)
  | .fixed bs =>
    match extract_to_buffer m bs.length with
    | .error e => .error e
    | .ok (b, m1) => .ok (.fixed b, m1)
  | .str _ =>
    match extract_string m with
    | .error e => .error e
    | .ok (s, m1) => .ok (.str s, m1)

/-- Pushes a list of fields in order, stopping at the first failure. -/
def push_fields (m : Message Id_type) : List Field → Except (Message Id_type) (Message Id_type)
  | [] => .ok m
  | f :: fs =>
    match push_field m f with
    | .error e => .error e
    | .ok m1 => push_fields m1 fs

/-- Extracts fields with the given list of type shapes, in order, collecting
the extracted values. -/
def extract_fields (m : Message Id_type) :
    List Field → Except (Message Id_type) (List Field × Message Id_type)
  | [] => .ok ([], m)
  | f :: fs =>
    match extract_field m f with
    | .error e => .error e
    | .ok (v, m1) =>
      match extract_fields m1 fs with
      | .error e => .error e
      | .ok (vs, m2) => .ok (v :: vs, m2)

/-! ## Thread_safe_deque (Networking_training/Networking/Utility/Thread_safe_deque.h)

Every member takes the mutex for its whole body, so each operation is atomic
and the deque is, observably, the plain sequence guarded by the lock; we model
it as that sequence, front at the head of the list.  `pop_front`/`pop_back`
on an empty deque call `std::deque::front`/`back` on an empty container
(undefined behaviour in C++), modelled as `none`. -/

namespace Deque

/-- Embeds `Thread_safe_deque::push_back`: appends at the back. -/
def push_back (q : List α) (x : α) : List α := q ++ [x]

/-- Embeds `Thread_safe_deque::push_front`: prepends at the front. -/
def push_front (q : List α) (x : α) : List α := x :: q

/-- Embeds `Thread_safe_deque::pop_front`: moves `front()` out, then `pop_front()`. -/
def pop_front : List α → Option (α × List α)
  | [] => none
  | x :: q => some (x, q)

/-- Embeds `Thread_safe_deque::pop_back`: moves `back()` out, then `pop_back()`. -/
def pop_back (q : List α) : Option (α × List α) :=
  match q.getLast? with
  | none => none
  | some x => some (x, q.dropLast)

/-- Pops `n` items off the front, collecting them in pop order. -/
def pop_front_n (q : List α) : Nat → Option (List α × List α)
  | 0 => some ([], q)
  | n + 1 =>
    match pop_front q with
    | none => none
    | some (x, q1) =>
      match pop_front_n q1 n with
      | none => none
      | some (xs, q2) => some (x :: xs, q2)

end Deque

/-! ## Net_user (Network_framework/Source/Net_user/Net_user.h) -/

/-- The observable queue state of a `Net_user`: its inbound
`Thread_safe_deque<Owned_message> m_in_queue`.  The framework's own
Thread_safe_deque header is not under src; modelled from the spec, its
`push_back`/`pop_back` are the standard deque operations (as in the in-src
Networking_training variant). -/
structure Net_user_queue (α : Type) where
  m_in_queue : List α
  deriving DecidableEq, Repr

/-- Embeds `Net_user::in_queue_push_back`: `m_in_queue.push_back(message)`. -/
def in_queue_push_back (u : Net_user_queue α) (message : α) : Net_user_queue α :=
  { u with m_in_queue := Deque.push_back u.m_in_queue message }

/-- Embeds `Net_user::in_queue_pop_front`: the source returns
`m_in_queue.pop_back()` — it pops the BACK of the inbound deque. -/
def in_queue_pop_front (u : Net_user_queue α) : Option (α × Net_user_queue α) :=
  match Deque.pop_back u.m_in_queue with
  | none => none
  | some (x, q) => some (x, { u with m_in_queue := q })

/-- The lifecycle state of a `Net_user` that `start_asio_thread` reads and
writes: whether `m_thread_handle` is joinable, whether the asio context is
stopped, and `m_asio_thread_stop_flag`.  (The asio `io_context` itself is
not under src; per the spec it is the given asynchronous runtime, whose
`restart` makes a stopped context not stopped, and a freshly spawned
`std::thread` is joinable.) -/
structure Net_user_state where
  thread_joinable : Bool
  context_stopped : Bool
  stop_flag : Bool
  deriving DecidableEq, Repr

/-- Embeds `Net_user::start_asio_thread`: if the thread handle is not joinable,
restarts the context when it was stopped, clears the stop flag, and spawns
the pump thread; otherwise throws `std::runtime_error`. -/
def start_asio_thread (s : Net_user_state) : Except String Net_user_state :=
  if !s.thread_joinable then
    .ok { thread_joinable := true,
          context_stopped := if s.context_stopped then false else s.context_stopped,
          stop_flag := false }
  else
    .error "asio thread is already running"

/-! ## Client_connection (Networking_training/Networking/Connection/Client_connection.h) -/

/-- The state of a `Client_connection` relevant to id assignment: whether the
socket is open, the id `m_id`, and the number of header reads issued.
`async_read_header` lives in the base `Net_connection` (not under src);
modelled from the spec, issuing the read is abstracted as incrementing
a count of issued header reads. -/
structure Client_connection where
  socket_open : Bool
  m_id : Nat
  reads_issued : Nat
  deriving DecidableEq, Repr

/-- A freshly constructed `Client_connection` over a socket: `m_id = 0`
(in-class initializer), no read issued yet. -/
def new_client_connection (socket_open : Bool) : Client_connection :=
  { socket_open := socket_open, m_id := 0, reads_issued := 0 }

/-- Embeds `Client_connection::get_id`. -/
def get_id (c : Client_connection) : Nat := c.m_id

/-- Embeds `Client_connection::connect_to_client`: when the socket is open, stores
the id and issues the first header read; otherwise does nothing. -/
def connect_to_client (c : Client_connection) (id : Nat) : Client_connection :=
  if c.socket_open then
    { c with m_id := id, reads_issued := c.reads_issued + 1 }
  else
    c

/-- A message whose body is 8 bytes short of the largest representable size
(`headerSizeMax - 8` bytes is still too long to also hold a string length
field after one more payload byte). -/
def near_full_message : Message Nat :=
  { m_header := { m_id := 0, m_internal_id := 0, m_size := 2 ^ 32 - 9 },
    m_body := List.replicate (2 ^ 32 - 9) 0 }

/-- The state `near_full_message` is left in by the failed string push of
`[0]`: the payload byte appended and counted, the length field absent. -/
def after_message : Message Nat :=
  { m_header := { m_id := 0, m_internal_id := 0, m_size := 2 ^ 32 - 8 },
    m_body := near_full_message.m_body ++ [0] }

/-- The message obtained by a successful string push: the original body, the
string bytes, then the 8-byte length field, with the header size updated. -/
def string_pushed (m : Message Id_type) (s : List Nat) : Message Id_type :=
  { m with m_body := (m.m_body ++ s) ++ u64_bytes s.length,
           m_header := { m.m_header with
                         m_size := m.m_body.length + s.length + 8 } }

/-! ## Helper lemmas -/

theorem u64_bytes_length (n : Nat) : (u64_bytes n).length = 8 := rfl

theorem bytes_to_u64_u64_bytes (n : Nat) (h : n < 2 ^ 64) :
    bytes_to_u64 (u64_bytes n) = n := by
  simp only [u64_bytes, bytes_to_u64]
  omega

theorem push_back_buffer_ok (m : Message Id_type) (buffer : List Nat)
    (h : m.m_body.length + buffer.length ≤ headerSizeMax)
    (hpos : 0 < buffer.length) :
    push_back_buffer m buffer =
      .ok { m with m_body := m.m_body ++ buffer,
                   m_header := { m.m_header with
                                 m_size := m.m_body.length + buffer.length } } := by
  unfold push_back_buffer
  rw [if_neg (by omega), if_neg (by omega)]

theorem push_back_buffer_zero (m : Message Id_type) :
    push_back_buffer m [] = .error m := by
  unfold push_back_buffer
  by_cases hc : m.m_body.length + ([] : List Nat).length > headerSizeMax
  · rw [if_pos hc]
  · rw [if_neg hc, if_pos List.length_nil]

theorem push_back_buffer_overflow (m : Message Id_type) (buffer : List Nat)
    (h : m.m_body.length + buffer.length > headerSizeMax) :
    push_back_buffer m buffer = .error m := by
  unfold push_back_buffer
  rw [if_pos h]

theorem push_string_step (m m1 : Message Id_type) (s : List Nat)
    (h : push_back_buffer m s = .ok m1) :
    push_string m s = push_back_buffer m1 (u64_bytes s.length) := by
  unfold push_string
  rw [h]

theorem extract_after_push (m : Message Id_type) (buffer : List Nat)
    (hwf : wf m) (h : m.m_body.length + buffer.length ≤ headerSizeMax)
    (hpos : 0 < buffer.length) :
    extract_to_buffer
      { m with m_body := m.m_body ++ buffer,
               m_header := { m.m_header with
                             m_size := m.m_body.length + buffer.length } }
      buffer.length = .ok (buffer, m) := by
  obtain ⟨hsize, hmax⟩ := hwf
  unfold extract_to_buffer
  simp only [List.length_append]
  rw [if_neg (by omega), if_neg (by omega)]
  have hlen : m.m_body.length + buffer.length - buffer.length = m.m_body.length := by
    omega
  rw [if_neg (by omega)]
  simp only [hlen, List.drop_left, List.take_left]
  cases m with
  | mk header body =>
    cases header with
    | mk id iid size =>
      simp only [Message.mk.injEq, Message_header.mk.injEq] at *
      simp [hsize]

theorem push_back_buffer_ok_bound (m m1 : Message Id_type) (buffer : List Nat)
    (h : push_back_buffer m buffer = .ok m1) :
    m.m_body.length + buffer.length ≤ headerSizeMax := by
  by_contra hc
  simp only [push_back_buffer] at h
  rw [if_pos (by omega)] at h
  cases h

theorem push_back_buffer_ok_pos (m m1 : Message Id_type) (buffer : List Nat)
    (h : push_back_buffer m buffer = .ok m1) : 0 < buffer.length := by
  by_contra hc
  have h0 : buffer.length = 0 := by omega
  simp only [push_back_buffer] at h
  by_cases hb : m.m_body.length + buffer.length > headerSizeMax
  · rw [if_pos hb] at h; cases h
  · rw [if_neg hb, if_pos h0] at h; cases h

theorem push_back_buffer_ok_shape (m m1 : Message Id_type) (buffer : List Nat)
    (h : push_back_buffer m buffer = .ok m1) :
    m1 = { m with m_body := m.m_body ++ buffer,
                  m_header := { m.m_header with
                                m_size := m.m_body.length + buffer.length } } := by
  have hb := push_back_buffer_ok_bound m m1 buffer h
  have hp := push_back_buffer_ok_pos m m1 buffer h
  rw [push_back_buffer_ok m buffer hb hp] at h
  cases h
  rfl

theorem wf_push_back_buffer (m m1 : Message Id_type) (buffer : List Nat)
    (h : push_back_buffer m buffer = .ok m1) : wf m1 := by
  have hb := push_back_buffer_ok_bound m m1 buffer h
  rw [push_back_buffer_ok_shape m m1 buffer h]
  exact (by exact ⟨by simp, by simp; omega⟩)

theorem wf_push_field (m m1 : Message Id_type) (f : Field)
    (h : push_field m f = .ok m1) : wf m1 := by
  cases f with
  | fixed bs => exact wf_push_back_buffer m m1 bs h
  | str s =>
    simp only [push_field, push_string] at h
    cases hp : push_back_buffer m s with
    | error e => rw [hp] at h; cases h
    | ok mA =>
      rw [hp] at h
      exact wf_push_back_buffer mA m1 (u64_bytes s.length) h

theorem extract_field_after_push (m m1 : Message Id_type) (f : Field)
    (hwf : wf m) (h : push_field m f = .ok m1) :
    extract_field m1 f = .ok (f, m) := by
  cases f with
  | fixed bs =>
    have hle := push_back_buffer_ok_bound m m1 bs h
    have hbp := push_back_buffer_ok_pos m m1 bs h
    rw [push_back_buffer_ok_shape m m1 bs h]
    simp only [extract_field]
    rw [extract_after_push m bs hwf hle hbp]
  | str s =>
    simp only [push_field, push_string] at h
    cases hp : push_back_buffer m s with
    | error e => rw [hp] at h; cases h
    | ok mA =>
      rw [hp] at h
      have hle1 := push_back_buffer_ok_bound m mA s hp
      have hpos1 := push_back_buffer_ok_pos m mA s hp
      have hshape1 := push_back_buffer_ok_shape m mA s hp
      have hle2 := push_back_buffer_ok_bound mA m1 (u64_bytes s.length) h
      have hshape2 := push_back_buffer_ok_shape mA m1 (u64_bytes s.length) h
      have hwfA : wf mA := wf_push_back_buffer m mA s hp
      simp only [extract_field, extract_string]
      have hex1 := extract_after_push mA (u64_bytes s.length) hwfA
        (by rw [u64_bytes_length] at hle2 ⊢; omega)
        (by rw [u64_bytes_length]; omega)
      rw [u64_bytes_length] at hex1 hshape2 hle2
      have hs64 : s.length < 2 ^ 64 := by
        have hmax : headerSizeMax < 2 ^ 64 := by norm_num [headerSizeMax]
        omega
      have hex2 := extract_after_push m s hwf hle1 hpos1
      rw [← hshape1] at hex2
      rw [hshape2]
      simp only [hex1, bytes_to_u64_u64_bytes s.length hs64, hex2]

theorem extract_fields_append (m : Message Id_type) (fs gs : List Field) :
    extract_fields m (fs ++ gs) =
      match extract_fields m fs with
      | .error e => .error e
      | .ok (vs, m1) =>
        match extract_fields m1 gs with
        | .error e => .error e
        | .ok (ws, m2) => .ok (vs ++ ws, m2) := by
  induction fs generalizing m with
  | nil =>
    simp only [List.nil_append, extract_fields]
    cases extract_fields m gs with
    | error e => rfl
    | ok p => obtain ⟨vs, m1⟩ := p; rfl
  | cons f fs ih =>
    cases hE : extract_field m f with
    | error e => simp only [List.cons_append, List.append_eq, extract_fields, hE]
    | ok p =>
      obtain ⟨v, m1⟩ := p
      simp only [List.cons_append, List.append_eq, extract_fields, hE, ih m1]
      cases extract_fields m1 fs with
      | error e => rfl
      | ok q =>
        obtain ⟨vs, m2⟩ := q
        dsimp only
        cases extract_fields m2 gs with
        | error e => rfl
        | ok r => rfl

theorem push_back_buffer_error_shape (m e : Message Id_type) (buffer : List Nat)
    (h : push_back_buffer m buffer = .error e) : e = m := by
  simp only [push_back_buffer] at h
  by_cases hc : m.m_body.length + buffer.length > headerSizeMax
  · rw [if_pos hc] at h; cases h; rfl
  · rw [if_neg hc] at h
    by_cases h0 : buffer.length = 0
    · rw [if_pos h0] at h; cases h; rfl
    · rw [if_neg h0] at h; cases h

theorem extract_to_buffer_underflow (m : Message Id_type) (n : Nat)
    (h : n > m.m_body.length) : extract_to_buffer m n = .error m := by
  unfold extract_to_buffer
  rw [if_pos h]

theorem extract_to_buffer_zero (m : Message Id_type) :
    extract_to_buffer m 0 = .error m := by
  unfold extract_to_buffer
  rw [if_neg (by omega), if_pos rfl]

theorem extract_to_buffer_ok_of_le (m : Message Id_type) (n : Nat)
    (hn : n ≤ m.m_body.length) (hmax : m.m_body.length ≤ headerSizeMax)
    (hpos : 0 < n) :
    extract_to_buffer m n =
      .ok (m.m_body.drop (m.m_body.length - n),
           { m with m_body := m.m_body.take (m.m_body.length - n),
                    m_header := { m.m_header with
                                  m_size := m.m_body.length - n } }) := by
  unfold extract_to_buffer
  rw [if_neg (by omega), if_neg (by omega), if_neg (by omega)]

theorem wf_apply_mutation (m : Message Id_type) (op : Mutation)
    (hop : op.is_resize = false) (hwf : wf m) : wf (apply_mutation m op) := by
  obtain ⟨hsize, hmax⟩ := hwf
  cases op with
  | push buffer =>
    simp only [apply_mutation]
    cases hp : push_back_buffer m buffer with
    | error e =>
      show wf e
      rw [push_back_buffer_error_shape m e buffer hp]
      exact ⟨hsize, hmax⟩
    | ok m1 =>
      show wf m1
      exact wf_push_back_buffer m m1 buffer hp
  | ext n =>
    simp only [apply_mutation]
    by_cases hn : n > m.m_body.length
    · rw [extract_to_buffer_underflow m n hn]
      exact ⟨hsize, hmax⟩
    · by_cases h0 : n = 0
      · rw [h0, extract_to_buffer_zero]
        exact ⟨hsize, hmax⟩
      · rw [extract_to_buffer_ok_of_le m n (by omega) hmax (by omega)]
        refine ⟨by simp, by simp; omega⟩
  | doClear =>
    exact ⟨rfl, Nat.zero_le _⟩
  | resize n =>
    simp [Mutation.is_resize] at hop

theorem wf_foldl_mutations (ops : List Mutation) :
    ∀ m : Message Id_type, (∀ op ∈ ops, op.is_resize = false) → wf m →
      wf (ops.foldl apply_mutation m) := by
  induction ops with
  | nil => intro m _ hwf; exact hwf
  | cons op ops ih =>
    intro m hops hwf
    simp only [List.foldl_cons]
    exact ih _ (fun o ho => hops o (List.mem_cons_of_mem _ ho))
      (wf_apply_mutation m op (hops op (List.mem_cons_self _ _)) hwf)

theorem foldl_push_back (q xs : List α) :
    xs.foldl Deque.push_back q = q ++ xs := by
  induction xs generalizing q with
  | nil => simp
  | cons x xs ih => simp [Deque.push_back, ih]

theorem pop_front_n_all (xs : List α) :
    Deque.pop_front_n xs xs.length = some (xs, []) := by
  induction xs with
  | nil => rfl
  | cons x xs ih =>
    simp only [List.length_cons, Deque.pop_front_n, Deque.pop_front, ih]

theorem roundtrip_aux (fs : List Field) :
    ∀ (m m1 : Message Id_type), wf m → push_fields m fs = .ok m1 →
      extract_fields m1 fs.reverse = .ok (fs.reverse, m) := by
  induction fs with
  | nil =>
    intro m m1 _ h
    simp only [push_fields] at h
    cases h
    simp [extract_fields]
  | cons f fs ih =>
    intro m m1 hwf h
    simp only [push_fields] at h
    cases hp : push_field m f with
    | error e => rw [hp] at h; cases h
    | ok mA =>
      rw [hp] at h
      have hwfA := wf_push_field m mA f hp
      have hrest := ih mA m1 hwfA h
      rw [List.reverse_cons, extract_fields_append]
      rw [hrest]
      have hstep := extract_field_after_push m mA f hwf hp
      simp only [extract_fields, hstep]

/-! ## Claims -/

/-- C1: the claim states that `in_queue_pop_front` returns inbound messages
in FIFO (arrival) order — the first message pushed via `in_queue_push_back`
is the first one returned.  The source has `in_queue_pop_front` return
`m_in_queue.pop_back()`; evaluated at the failing input (push 10, then push
20), the first pop returns 20, the most recently pushed message, with 10
still queued — LIFO, not FIFO. -/
theorem C1_in_queue_pop_front_returns_newest :
    in_queue_pop_front
        (in_queue_push_back (in_queue_push_back ⟨[]⟩ (10 : Nat)) 20) =
      some (20, ⟨[10]⟩) := rfl

/-- C2 counterexample: `resize_body 5` on a fresh message makes the body
5 bytes long but leaves the header's size field at 0, so after a mutation
sequence that includes `resize_body` the size field need not equal the body
length. -/
theorem C2_resize_body_breaks_size_invariant :
    ¬ ((apply_mutation (empty_message (0 : Nat)) (.resize 5)).m_header.m_size =
        (apply_mutation (empty_message (0 : Nat)) (.resize 5)).m_body.length) := by
  decide

/-- C2 (amended): after every sequence of mutations through `push_back`,
`extract` and `clear` — but not `resize_body`, which changes the body length
without touching the header — a well-formed message's header size field
equals its body length (also when some of the pushes or extracts failed). -/
theorem C2_size_matches_body_after_mutations (ops : List Mutation)
    (m : Message Id_type) (hops : ∀ op ∈ ops, op.is_resize = false)
    (hwf : wf m) :
    (ops.foldl apply_mutation m).m_header.m_size =
      (ops.foldl apply_mutation m).m_body.length :=
  (wf_foldl_mutations ops m hops hwf).1

theorem C2_size_matches_body_witness :
    ([Mutation.push [1, 2, 3], Mutation.ext 2, Mutation.doClear,
        Mutation.push [7]].foldl apply_mutation
        (empty_message (0 : Nat))).m_header.m_size =
      ([Mutation.push [1, 2, 3], Mutation.ext 2, Mutation.doClear,
        Mutation.push [7]].foldl apply_mutation
        (empty_message (0 : Nat))).m_body.length :=
  C2_size_matches_body_after_mutations _ _ (by decide) (by decide)

/-- C3 counterexample: a message whose 8-byte body is exactly a length field
claiming 5 payload bytes.  `extract<std::string>` throws a length error (the
5 requested payload bytes exceed the 0 remaining), but the message afterwards
has an empty body: the 8-byte length field was consumed, so the message is
not left as it was before the call. -/
theorem C3_extract_string_not_unchanged :
    extract_string (⟨⟨0, 0, 8⟩, u64_bytes 5⟩ : Message Nat) =
        .error ⟨⟨0, 0, 0⟩, []⟩ ∧
      (⟨⟨0, 0, 0⟩, []⟩ : Message Nat) ≠ ⟨⟨0, 0, 8⟩, u64_bytes 5⟩ :=
  ⟨rfl, by decide⟩

/-- C3 (amended): a plain extract of more bytes than the body holds fails
with a length error and leaves the message unchanged; `extract<std::string>`
likewise leaves the message unchanged when fewer than 8 bytes remain for the
length field, but when the length field is read successfully and the payload
extraction then fails, the message is left with the 8-byte length field
consumed (body truncated by 8, size field updated), not as it was. -/
theorem C3_underflow_behaviour (m : Message Id_type) (n : Nat) :
    (n > m.m_body.length → extract_to_buffer m n = .error m) ∧
    (m.m_body.length < 8 → extract_string m = .error m) ∧
    (8 ≤ m.m_body.length → wf m →
      bytes_to_u64 (m.m_body.drop (m.m_body.length - 8)) >
        m.m_body.length - 8 →
      extract_string m =
        .error { m with m_body := m.m_body.take (m.m_body.length - 8),
                        m_header := { m.m_header with
                                      m_size := m.m_body.length - 8 } }) := by
  refine ⟨fun h => extract_to_buffer_underflow m n h, fun h => ?_,
    fun h8 hwf hlen => ?_⟩
  · unfold extract_string
    rw [extract_to_buffer_underflow m 8 (by omega)]
  · unfold extract_string
    rw [extract_to_buffer_ok_of_le m 8 h8 hwf.2 (by omega)]
    dsimp only
    rw [extract_to_buffer_underflow _ _
      (by simp only [List.length_take]; omega)]

theorem C3_underflow_witness :
    extract_to_buffer (⟨⟨0, 0, 3⟩, [1, 2, 3]⟩ : Message Nat) 5 =
        .error ⟨⟨0, 0, 3⟩, [1, 2, 3]⟩ ∧
      extract_string (⟨⟨0, 0, 3⟩, [1, 2, 3]⟩ : Message Nat) =
        .error ⟨⟨0, 0, 3⟩, [1, 2, 3]⟩ ∧
      extract_string (⟨⟨0, 0, 8⟩, u64_bytes 5⟩ : Message Nat) =
        .error ⟨⟨0, 0, 0⟩, []⟩ :=
  ⟨(C3_underflow_behaviour ⟨⟨0, 0, 3⟩, [1, 2, 3]⟩ 5).1 (by decide),
   (C3_underflow_behaviour ⟨⟨0, 0, 3⟩, [1, 2, 3]⟩ 0).2.1 (by decide),
   (C3_underflow_behaviour ⟨⟨0, 0, 8⟩, u64_bytes 5⟩ 0).2.2 (by decide)
     (by decide) (by decide)⟩

/-- C4: pushing fields v1, ..., vn (fixed-layout values, represented by
their object bytes, or strings) onto an initially empty message and then
extracting n times with the matching types in reverse order returns exactly
vn, ..., v1 (the reversed field list) and returns the message to its
original empty-bodied state.  The push-success hypothesis matches the
program exactly: a sequence containing an empty string (or a zero-byte
buffer — no fixed-layout C++ type has size zero) cannot be pushed, since the
zero-length copy throws out-of-range. -/
theorem C4_push_extract_roundtrip (fs : List Field) (m0 m1 : Message Id_type)
    (hbody : m0.m_body = []) (hsize : m0.m_header.m_size = 0)
    (hpush : push_fields m0 fs = .ok m1) :
    extract_fields m1 fs.reverse = .ok (fs.reverse, m0) ∧ m0.m_body = [] := by
  have hwf : wf m0 := by
    constructor
    · rw [hsize, hbody]; rfl
    · rw [hbody]; exact Nat.zero_le _
  exact ⟨roundtrip_aux fs m0 m1 hwf hpush, hbody⟩

theorem C4_push_extract_roundtrip_witness :
    extract_fields (⟨⟨0, 0, 11⟩, [1, 2, 65, 1, 0, 0, 0, 0, 0, 0, 0]⟩ : Message Nat)
        ([Field.fixed [1, 2], Field.str [65]].reverse) =
      .ok ([Field.fixed [1, 2], Field.str [65]].reverse, empty_message 0) ∧
    (empty_message (0 : Nat)).m_body = [] :=
  C4_push_extract_roundtrip [Field.fixed [1, 2], Field.str [65]]
    (empty_message 0) ⟨⟨0, 0, 11⟩, [1, 2, 65, 1, 0, 0, 0, 0, 0, 0, 0]⟩
    rfl rfl rfl

theorem near_full_message_body :
    near_full_message.m_body = List.replicate (2 ^ 32 - 9) 0 := rfl

theorem near_full_body_length :
    near_full_message.m_body.length = 2 ^ 32 - 9 := by
  rw [near_full_message_body, List.length_replicate]

theorem near_full_size :
    near_full_message.m_header.m_size = 2 ^ 32 - 9 := rfl

theorem empty_message_body_length (id : Id_type) :
    (empty_message id).m_body.length = 0 := rfl

theorem after_message_body :
    after_message.m_body = near_full_message.m_body ++ [0] := rfl

theorem after_message_body_length :
    after_message.m_body.length = 2 ^ 32 - 8 := by
  rw [after_message_body, List.length_append, near_full_body_length]
  decide

theorem after_message_size :
    after_message.m_header.m_size = 2 ^ 32 - 8 := rfl

/-- C5 counterexample: on `near_full_message`, whose body is
`headerSizeMax - 8` bytes, pushing the one-byte string `[0]` gives a
resulting body size (one more payload byte plus the 8 length bytes) that
exceeds the header's maximum representable size.  The push fails with a
length error as claimed, but the message is not left as it was: it ends as
`after_message`, with the string byte already appended and counted (only the
subsequent length-field push failed). -/
theorem C5_string_push_overflow_mutates :
    push_string near_full_message [0] = .error after_message ∧
      after_message ≠ near_full_message := by
  constructor
  · have hM : ({ near_full_message with
        m_body := near_full_message.m_body ++ [0],
        m_header := { near_full_message.m_header with
                      m_size := near_full_message.m_body.length +
                        [0].length } } : Message Nat) = after_message := by
      rw [show after_message =
        Message.mk ⟨0, 0, 2 ^ 32 - 8⟩ (near_full_message.m_body ++ [0]) from rfl]
      simp only [Message.mk.injEq, Message_header.mk.injEq, and_true]
      refine ⟨rfl, rfl, ?_⟩
      rw [near_full_body_length]
      decide
    have hL1 : push_back_buffer near_full_message [0] = .ok after_message := by
      rw [push_back_buffer_ok near_full_message [0]
        (by rw [near_full_body_length]; decide) (by decide), hM]
    exact (push_string_step near_full_message after_message [0] hL1).trans
      (push_back_buffer_overflow after_message (u64_bytes [0].length)
        (by rw [after_message_body_length, u64_bytes_length]; decide))
  · intro hEq
    have hH := congrArg Message.m_header hEq
    have hS := congrArg Message_header.m_size hH
    rw [near_full_size, after_message_size] at hS
    exact absurd hS (by decide)

/-- C5 (amended): a `push_back_buffer` call (hence any fixed-layout push)
whose resulting body size would exceed the header's maximum representable
size fails with a length error and leaves the message exactly as it was; a
string push likewise leaves the message unchanged when already the string
bytes do not fit; when the string is nonempty, its bytes fit, and only the
trailing 8-byte length field overflows, the push fails with the string bytes
already appended (and the size field counting them); and a push of the empty
string always fails — out-of-range on the zero-length copy — leaving the
message unchanged. -/
theorem C5_overflow_behaviour (m : Message Id_type) (buffer s : List Nat) :
    (m.m_body.length + buffer.length > headerSizeMax →
      push_back_buffer m buffer = .error m) ∧
    (m.m_body.length + s.length > headerSizeMax →
      push_string m s = .error m) ∧
    (s ≠ [] →
      m.m_body.length + s.length ≤ headerSizeMax →
      m.m_body.length + s.length + 8 > headerSizeMax →
      push_string m s =
        .error { m with m_body := m.m_body ++ s,
                        m_header := { m.m_header with
                                      m_size := m.m_body.length + s.length } }) ∧
    push_string m [] = .error m := by
  refine ⟨fun h => ?_, fun h => ?_, fun hne h1 h2 => ?_, ?_⟩
  · unfold push_back_buffer
    rw [if_pos h]
  · have hp : push_back_buffer m s = .error m := by
      unfold push_back_buffer
      rw [if_pos h]
    unfold push_string
    rw [hp]
  · have herr : push_back_buffer
        ({ m with m_body := m.m_body ++ s,
                  m_header := { m.m_header with
                                m_size := m.m_body.length + s.length } } : Message Id_type)
        (u64_bytes s.length) =
        .error { m with m_body := m.m_body ++ s,
                        m_header := { m.m_header with
                                      m_size := m.m_body.length + s.length } } := by
      unfold push_back_buffer
      rw [if_pos (by simp only [List.length_append, u64_bytes_length]; omega)]
    unfold push_string
    rw [push_back_buffer_ok m s h1 (List.length_pos.mpr hne)]
    dsimp only
    rw [herr]
  · unfold push_string
    rw [push_back_buffer_zero]

theorem C5_overflow_witness :
    push_back_buffer (empty_message (0 : Nat)) (List.replicate (2 ^ 32) 0) =
        .error (empty_message 0) ∧
      push_string (empty_message (0 : Nat)) (List.replicate (2 ^ 32) 0) =
        .error (empty_message 0) ∧
      push_string near_full_message [0] =
        .error { near_full_message with
                 m_body := near_full_message.m_body ++ [0],
                 m_header := { near_full_message.m_header with
                               m_size := near_full_message.m_body.length +
                                 [0].length } } ∧
      push_string near_full_message [] = .error near_full_message :=
  ⟨(C5_overflow_behaviour (empty_message 0) (List.replicate (2 ^ 32) 0) []).1
      (by rw [empty_message_body_length, List.length_replicate]; decide),
   (C5_overflow_behaviour (empty_message 0) [] (List.replicate (2 ^ 32) 0)).2.1
      (by rw [empty_message_body_length, List.length_replicate]; decide),
   (C5_overflow_behaviour near_full_message [] [0]).2.2.1
      (by decide)
      (by rw [near_full_body_length]; decide)
      (by rw [near_full_body_length]; decide),
   (C5_overflow_behaviour near_full_message [] []).2.2.2⟩

/-- C6 counterexample: the claim quantifies over every string, but pushing
the empty string does not append its (zero) raw bytes and then the 8-byte
length: the first `push_back_buffer(string.data(), 0)` throws
`std::out_of_range` (`m_body.at(size)` indexes one past the end on the
zero-length copy), so the push fails and appends nothing, instead of
producing the appended body the claim describes. -/
theorem C6_empty_string_push_fails :
    push_string (empty_message (0 : Nat)) [] = .error (empty_message 0) ∧
      (Except.error (empty_message 0) :
          Except (Message Nat) (Message Nat)) ≠
        .ok (string_pushed (empty_message 0) []) :=
  ⟨rfl, fun h => Except.noConfusion h⟩

/-- C6 (amended): for every nonempty string s, pushing s appends first the
raw bytes of s and then the length of s as an unsigned 64-bit (8-byte
little-endian) integer, and `extract<std::string>` on the pushed message
extracts the trailing 64-bit length and then that many bytes, recovering
exactly s and the original message; pushing the empty string instead throws
out-of-range on the zero-length copy and appends nothing. -/
theorem C6_string_wire_format (m : Message Id_type) (s : List Nat)
    (hwf : wf m) (hfit : m.m_body.length + s.length + 8 ≤ headerSizeMax)
    (hne : s ≠ []) :
    push_string m s = .ok (string_pushed m s) ∧
      extract_string (string_pushed m s) = .ok (s, m) := by
  have hp1 : push_string m s = .ok (string_pushed m s) := by
    unfold push_string
    rw [push_back_buffer_ok m s (by omega) (List.length_pos.mpr hne)]
    dsimp only
    rw [push_back_buffer_ok _ (u64_bytes s.length)
      (by simp only [List.length_append, u64_bytes_length]; omega)
      (by rw [u64_bytes_length]; omega)]
    unfold string_pushed
    simp [List.length_append, u64_bytes_length]
  refine ⟨hp1, ?_⟩
  have hfield : push_field m (.str s) = .ok (string_pushed m s) := hp1
  have hstep := extract_field_after_push m (string_pushed m s) (.str s) hwf hfield
  simp only [extract_field] at hstep
  cases hE : extract_string (string_pushed m s) with
  | error e => rw [hE] at hstep; cases hstep
  | ok p =>
    obtain ⟨payload, m2⟩ := p
    rw [hE] at hstep
    dsimp only at hstep
    simp only [Except.ok.injEq, Prod.mk.injEq, Field.str.injEq] at hstep
    obtain ⟨hA, hB⟩ := hstep
    rw [hA, hB]

theorem C6_string_wire_format_witness :
    push_string (empty_message (0 : Nat)) [65, 66] =
        .ok (string_pushed (empty_message 0) [65, 66]) ∧
      extract_string (string_pushed (empty_message 0) [65, 66]) =
        .ok ([65, 66], empty_message 0) :=
  C6_string_wire_format (empty_message 0) [65, 66] (by decide) (by decide)
    (by decide)

/-- C7: for the Thread_safe_deque, n sequential push_back operations of
values x1, ..., xn (starting from the default-constructed, empty deque)
followed by n pop_front operations return x1, ..., xn in the original push
order, leaving the deque empty. -/
theorem C7_deque_fifo (xs : List α) :
    Deque.pop_front_n (xs.foldl Deque.push_back []) xs.length =
      some (xs, []) := by
  rw [foldl_push_back, List.nil_append]
  exact pop_front_n_all xs

/-- C8: `start_asio_thread` fails with the already-running error exactly
when the thread handle is joinable; otherwise it succeeds, leaving the
context not stopped (restarted if it was stopped), the stop flag cleared,
and the pump thread spawned (handle joinable). -/
theorem C8_start_asio_thread_behaviour (s : Net_user_state) :
    start_asio_thread s =
      if s.thread_joinable then
        Except.error "asio thread is already running"
      else
        Except.ok { thread_joinable := true, context_stopped := false,
                    stop_flag := false } := by
  unfold start_asio_thread
  cases hj : s.thread_joinable with
  | true => rfl
  | false => cases hc : s.context_stopped <;> rfl

/-- C9: the body operations `push_back` (also when it fails), `extract`
(also when it fails) and `clear` leave the header's application id `m_id`
and internal id `m_internal_id` unchanged. -/
theorem C9_body_ops_preserve_ids (m : Message Id_type) (buffer : List Nat)
    (n : Nat) :
    ((apply_mutation m (.push buffer)).m_header.m_id = m.m_header.m_id ∧
      (apply_mutation m (.push buffer)).m_header.m_internal_id =
        m.m_header.m_internal_id) ∧
    ((apply_mutation m (.ext n)).m_header.m_id = m.m_header.m_id ∧
      (apply_mutation m (.ext n)).m_header.m_internal_id =
        m.m_header.m_internal_id) ∧
    ((apply_mutation m .doClear).m_header.m_id = m.m_header.m_id ∧
      (apply_mutation m .doClear).m_header.m_internal_id =
        m.m_header.m_internal_id) := by
  refine ⟨?_, ?_, ⟨rfl, rfl⟩⟩
  · simp only [apply_mutation]
    cases hp : push_back_buffer m buffer with
    | error e =>
      rw [push_back_buffer_error_shape m e buffer hp]
      exact ⟨rfl, rfl⟩
    | ok m1 =>
      rw [push_back_buffer_ok_shape m m1 buffer hp]
      exact ⟨rfl, rfl⟩
  · simp only [apply_mutation, extract_to_buffer]
    by_cases h1 : n > m.m_body.length
    · rw [if_pos h1]
      exact ⟨rfl, rfl⟩
    · rw [if_neg h1]
      by_cases h0 : n = 0
      · rw [if_pos h0]
        exact ⟨rfl, rfl⟩
      · rw [if_neg h0]
        by_cases h2 : m.m_body.length - n > headerSizeMax
        · rw [if_pos h2]
          exact ⟨rfl, rfl⟩
        · rw [if_neg h2]
          exact ⟨rfl, rfl⟩

/-- C10: a freshly constructed `Client_connection` has id 0 (and
`get_id` keeps returning 0 until `connect_to_client` runs with the socket
open, since the closed-socket call changes nothing); `connect_to_client`
with the socket open assigns the given id and issues the first header read;
with the socket closed it leaves the connection — id included — unchanged
and issues no read. -/
theorem C10_client_connection_id (b : Bool) (c : Client_connection)
    (id : Nat) :
    get_id (new_client_connection b) = 0 ∧
    (c.socket_open = true →
      get_id (connect_to_client c id) = id ∧
        (connect_to_client c id).reads_issued = c.reads_issued + 1) ∧
    (c.socket_open = false → connect_to_client c id = c) := by
  refine ⟨rfl, fun h => ?_, fun h => ?_⟩
  · unfold connect_to_client
    rw [if_pos h]
    exact ⟨rfl, rfl⟩
  · unfold connect_to_client
    rw [if_neg (by simp [h])]

theorem C10_client_connection_id_witness :
    (get_id (connect_to_client (new_client_connection true) 7) = 7 ∧
      (connect_to_client (new_client_connection true) 7).reads_issued =
        (new_client_connection true).reads_issued + 1) ∧
    connect_to_client (new_client_connection false) 7 =
      new_client_connection false :=
  ⟨(C10_client_connection_id true (new_client_connection true) 7).2.1 rfl,
   (C10_client_connection_id true (new_client_connection false) 7).2.2 rfl⟩

end NetSpec
